import Mathlib

set_option maxRecDepth 10000

/-!
Verification of the photo-gallery core of `src/gallery.js`: the regex-driven
extraction loop of `fetchGooglePhotos` (scan the album HTML for bracketed
`["<url>",<width>,<height>]` descriptors, filter by size, deduplicate by URL,
stop after six accepted photos) and the positional layout assignment of
`renderGallery` (index 0 gets the large tile with a caption overlay, index 5
the wide tile with a caption overlay, every other index a small tile).
-/

namespace Gallery

/-- One accepted image candidate, as pushed onto `photos` in
`fetchGooglePhotos` (`{url, width, height}`). -/
structure Photo where
  url : String
  width : Nat
  height : Nat
  deriving DecidableEq, Repr

/-- Drop the literal character sequence `lit` from the front of `s`;
`none` when `s` does not start with `lit`. -/
def dropLit : List Char → List Char → Option (List Char)
  | [], s => some s
  | _, [] => none
  | c :: lit, d :: s => if c = d then dropLit lit s else none

/-- The fixed text preceding the URL body in the descriptor regex
`\["(https:\/\/lh3\.googleusercontent\.com\/[^"]+)",(\d+),(\d+)\]`:
the opening bracket, the opening quote and the mandatory host prefix. -/
def descriptorHead : List Char := "[\"https://lh3.googleusercontent.com/".toList

/-- The host prefix that is part of capture group 1 of the regex. -/
def hostPrefix : String := "https://lh3.googleusercontent.com/"

/-- Decimal value of a digit string, the result of `parseInt(m, 10)` on an
all-digit match. -/
def digitsToNat (ds : List Char) : Nat :=
  ds.foldl (fun acc c => 10 * acc + (c.toNat - '0'.toNat)) 0

/-- Attempt to match the descriptor regex at the very start of `s`.
On success, return the captured URL (host prefix + the maximal nonempty run
of non-quote characters), the two parsed dimensions, and the text after the
closing `]`.  The regex backtracks deterministically here: `[^"]+` must stop
at the next quote, and each `\d+` must stop at the next non-digit. -/
def matchDescriptorAt (s : List Char) : Option (String × Nat × Nat × List Char) :=
  (dropLit descriptorHead s).bind fun s1 =>
    let body := s1.takeWhile (fun c => c ≠ '"')
    if body.isEmpty then none else
    (dropLit ['"', ','] (s1.dropWhile (fun c => c ≠ '"'))).bind fun s3 =>
      let wds := s3.takeWhile Char.isDigit
      if wds.isEmpty then none else
      (dropLit [','] (s3.dropWhile Char.isDigit)).bind fun s5 =>
        let hds := s5.takeWhile Char.isDigit
        if hds.isEmpty then none else
        (dropLit [']'] (s5.dropWhile Char.isDigit)).map fun s7 =>
          (hostPrefix ++ String.mk body, digitsToNat wds, digitsToNat hds, s7)

theorem dropLit_length {lit s r : List Char} (h : dropLit lit s = some r) :
    r.length + lit.length = s.length := by
  induction lit generalizing s with
  | nil => simp [dropLit] at h; simp [h]
  | cons c lit ih =>
    cases s with
    | nil => simp [dropLit] at h
    | cons d s =>
      simp only [dropLit] at h
      split at h
      · have := ih h
        simp [List.length_cons]; omega
      · exact absurd h (by simp)

theorem length_dropWhile_le (p : Char → Bool) (s : List Char) :
    (s.dropWhile p).length ≤ s.length := by
  induction s with
  | nil => simp
  | cons c s ih =>
    by_cases h : p c
    · simp [List.dropWhile, h]; omega
    · simp [List.dropWhile, h]

/-- A successful match consumes at least the descriptor head, so the residual
text is strictly shorter: this justifies the termination of the scan loop. -/
theorem matchDescriptorAt_length_lt {s : List Char} {u : String} {w h : Nat}
    {rest : List Char} (hm : matchDescriptorAt s = some (u, w, h, rest)) :
    rest.length < s.length := by
  unfold matchDescriptorAt at hm
  cases h1 : dropLit descriptorHead s with
  | none => rw [h1] at hm; exact absurd hm (by simp)
  | some s1 =>
    rw [h1] at hm
    simp only [Option.some_bind] at hm
    split at hm
    · exact absurd hm (by simp)
    cases h3 : dropLit ['"', ','] (s1.dropWhile (fun c => c ≠ '"')) with
    | none => rw [h3] at hm; exact absurd hm (by simp)
    | some s3 =>
      rw [h3] at hm
      simp only [Option.some_bind] at hm
      split at hm
      · exact absurd hm (by simp)
      cases h5 : dropLit [','] (s3.dropWhile Char.isDigit) with
      | none => rw [h5] at hm; exact absurd hm (by simp)
      | some s5 =>
        rw [h5] at hm
        simp only [Option.some_bind] at hm
        split at hm
        · exact absurd hm (by simp)
        cases h7 : dropLit [']'] (s5.dropWhile Char.isDigit) with
        | none => rw [h7] at hm; exact absurd hm (by simp)
        | some s7 =>
          rw [h7] at hm
          simp only [Option.map_some', Option.some.injEq, Prod.mk.injEq] at hm
          have e1 := dropLit_length h1
          have e3 := dropLit_length h3
          have e5 := dropLit_length h5
          have e7 := dropLit_length h7
          have d1 := length_dropWhile_le (fun c => c ≠ '"') s1
          have d3 := length_dropWhile_le Char.isDigit s3
          have d5 := length_dropWhile_le Char.isDigit s5
          have hrest : rest = s7 := by
            obtain ⟨-, -, -, h⟩ := hm; exact h.symm
          have hhead : descriptorHead.length = 36 := by rfl
          subst hrest
          omega

/-- The body of one iteration of the `while` loop of `fetchGooglePhotos` for
one match: keep the photo when `width > 300 && height > 300` and its URL is
not in `seenUrls`, in which case push it and record the URL. -/
def scanStepState (photos : List Photo) (seen : List String) (url : String)
    (w h : Nat) : List Photo × List String :=
  if w > 300 ∧ h > 300 then
    if seen.contains url then (photos, seen)
    else (photos ++ [⟨url, w, h⟩], url :: seen)
  else (photos, seen)

/-- The scanning loop of `fetchGooglePhotos` (lines 31–52 of `gallery.js`),
with an explicit fuel argument to make the recursion structural: repeatedly
find the next descriptor match, process it with `scanStepState`, and break
as soon as six photos have been collected.  `photos` and `seen` are the
loop's local `photos` array and `seenUrls` set.  Every step consumes at
least one character, so fuel at least the text length never runs out
(`scanFuel_congr` below makes this exact). -/
def scanFuel : Nat → List Char → List Photo → List String → List Photo
  | _, [], photos, _ => photos
  | 0, _ :: _, photos, _ => photos
  | fuel + 1, c :: tail, photos, seen =>
    match matchDescriptorAt (c :: tail) with
    | none => scanFuel fuel tail photos seen
    | some (url, w, h, rest) =>
      let st := scanStepState photos seen url w h
      if st.1.length ≥ 6 then st.1
      else scanFuel fuel rest st.1 st.2

/-- The scanning loop, supplied with sufficient fuel. -/
def scanAux (s : List Char) (photos : List Photo) (seen : List String) :
    List Photo :=
  scanFuel s.length s photos seen

/-- The extraction core of `fetchGooglePhotos`: scan the page text from the
start with an empty photo list and an empty seen-URL set. -/
def extract (html : String) : List Photo :=
  scanAux html.toList [] []

/-- Every descriptor match of the page text, in left-to-right scan order:
the same scan as `scanFuel`, with no filtering and no quota.  This captures
the spec's "order of occurrence in the source text". -/
def matchesFuel : Nat → List Char → List (String × Nat × Nat)
  | _, [] => []
  | 0, _ :: _ => []
  | fuel + 1, c :: tail =>
    match matchDescriptorAt (c :: tail) with
    | none => matchesFuel fuel tail
    | some (url, w, h, rest) => (url, w, h) :: matchesFuel fuel rest

/-- The match scan, supplied with sufficient fuel. -/
def matchesOf (s : List Char) : List (String × Nat × Nat) :=
  matchesFuel s.length s

/-- Modelled from the spec: one step of the selection contract
(filter → dedup → quota) applied to one descriptor match, acting on the
state of accepted photos and accepted URLs. -/
def selectStep (st : List Photo × List String) (m : String × Nat × Nat) :
    List Photo × List String :=
  if st.1.length ≥ 6 then st
  else if m.2.1 > 300 ∧ m.2.2 > 300 then
    if st.2.contains m.1 then st
    else (st.1 ++ [⟨m.1, m.2.1, m.2.2⟩], m.1 :: st.2)
  else st

/-- Fold the selection contract over an ordered list of matches. -/
def selectFold (ms : List (String × Nat × Nat)) (st : List Photo × List String) :
    List Photo × List String :=
  ms.foldl selectStep st

/-- Modelled from the spec: the Photos accepted from an ordered match list —
size-filter-passing, first-acceptance-wins deduplication, capped at six,
acceptance order = order in the match list. -/
def specSelect (ms : List (String × Nat × Nat)) : List Photo :=
  (selectFold ms ([], [])).1

/-! ### Layout assignment (`renderGallery`) -/

/-- The three size treatments `renderGallery` can give a tile:
`col-span-2 row-span-2` (index 0), `col-span-2` (index 5), default 1×1. -/
inductive SizeClass where
  | LARGE
  | SMALL
  | WIDE
  deriving DecidableEq, Repr

/-- The visual role of one ordinal position: size class plus whether the
caption overlay is attached (`index === 0 || index === 5`). -/
structure SlotSpec where
  sizeClass : SizeClass
  hasOverlay : Bool
  deriving DecidableEq, Repr

/-- The per-index branching of `renderGallery`'s `forEach` body: index 0 gets
the big tile, index 5 the wide tile, anything else the default small tile;
the overlay is added exactly at indices 0 and 5. -/
def slotFor (index : Nat) : SlotSpec :=
  if index = 0 then ⟨.LARGE, true⟩
  else if index = 5 then ⟨.WIDE, true⟩
  else ⟨.SMALL, false⟩

/-- `renderGallery` as data: each photo, in input order, paired with the slot
determined by its ordinal position.  The DOM construction is presentation
plumbing; the list of (photo, slot) pairs is what the `forEach` produces. -/
def renderGallery (photos : List Photo) : List (Photo × SlotSpec) :=
  photos.enum.map (fun ip => (ip.2, slotFor ip.1))

/-- The slot `renderGallery` assigns to position `i` of a photo list (a
default value out of range; the claims only use it at in-range indices). -/
def slotAt (photos : List Photo) (i : Nat) : SlotSpec :=
  ((renderGallery photos).getD i (⟨"", 0, 0⟩, ⟨.SMALL, false⟩)).2

/-- Invariant carried by the selection state: the seen-URL list is exactly
the accepted URLs in reverse acceptance order, accepted URLs are pairwise
distinct, at most six photos are accepted, and every accepted photo passed
the size filter. -/
def GoodState (st : List Photo × List String) : Prop :=
  st.2 = (st.1.map Photo.url).reverse ∧
    (st.1.map Photo.url).Nodup ∧
    st.1.length ≤ 6 ∧
    ∀ p ∈ st.1, 300 < p.width ∧ 300 < p.height

/-- A sample six-photo result list, for instantiating the layout claims. -/
def samplePhotos : List Photo :=
  [⟨"https://lh3.googleusercontent.com/s1", 400, 400⟩,
   ⟨"https://lh3.googleusercontent.com/s2", 401, 401⟩,
   ⟨"https://lh3.googleusercontent.com/s3", 402, 402⟩,
   ⟨"https://lh3.googleusercontent.com/s4", 403, 403⟩,
   ⟨"https://lh3.googleusercontent.com/s5", 404, 404⟩,
   ⟨"https://lh3.googleusercontent.com/s6", 405, 405⟩]

/-- A sample eight-photo list (longer than the quota), for instantiating the
layout-totality claim. -/
def eightPhotos : List Photo :=
  samplePhotos ++
    [⟨"https://lh3.googleusercontent.com/s7", 406, 406⟩,
     ⟨"https://lh3.googleusercontent.com/s8", 407, 407⟩]

/-- A page text with one well-formed descriptor that passes the size
filter. -/
def okHtml : String :=
  "<html>[\"https://lh3.googleusercontent.com/abc\",400,500]</html>"

/-- A page text with no well-formed descriptor (the width field is not
numeric), for the malformed-input claim. -/
def malformedHtml : String :=
  "<html>[\"https://lh3.googleusercontent.com/abc\",12a,340]</html>"

/-- A page text in which the URL `…/x` first occurs in a descriptor failing
the size filter and then in one passing it, with nothing else. -/
def retryHtml : String :=
  "[\"https://lh3.googleusercontent.com/x\",100,100][\"https://lh3.googleusercontent.com/x\",400,400]"

/-- A page text with six accepted descriptors followed by a failing and then
a passing occurrence of the fresh URL `…/x`: the quota is reached before the
passing occurrence is scanned. -/
def quotaHtml : String :=
  "[\"https://lh3.googleusercontent.com/a1\",400,400][\"https://lh3.googleusercontent.com/a2\",400,400][\"https://lh3.googleusercontent.com/a3\",400,400][\"https://lh3.googleusercontent.com/a4\",400,400][\"https://lh3.googleusercontent.com/a5\",400,400][\"https://lh3.googleusercontent.com/a6\",400,400][\"https://lh3.googleusercontent.com/x\",100,100][\"https://lh3.googleusercontent.com/x\",400,400]"

/-- Two successive invocations of the extractor on the same text.  Each call
of `fetchGooglePhotos` creates its own `regex` (hence its own scan
position), `photos` array and `seenUrls` set (lines 25–29 of `gallery.js`),
so each run is the same pure scan from position 0 with empty local state. -/
def extractTwice (html : String) : List Photo × List Photo :=
  (extract html, extract html)

/-! ### Fuel irrelevance and unfolding lemmas for the two scans -/

theorem scanFuel_congr :
    ∀ (f g : Nat) (s : List Char) (photos : List Photo) (seen : List String),
      s.length ≤ f → s.length ≤ g →
      scanFuel f s photos seen = scanFuel g s photos seen := by
  intro f
  induction f with
  | zero =>
    intro g s photos seen hf _
    have hnil : s = [] := List.eq_nil_of_length_eq_zero (Nat.le_zero.mp hf)
    subst hnil
    cases g <;> rfl
  | succ f ih =>
    intro g s photos seen hf hg
    cases s with
    | nil => cases g <;> rfl
    | cons c tail =>
      cases g with
      | zero => simp at hg
      | succ g =>
        cases hm : matchDescriptorAt (c :: tail) with
        | none =>
          simp only [scanFuel, hm]
          exact ih g tail photos seen (by simp at hf; omega) (by simp at hg; omega)
        | some val =>
          obtain ⟨url, w, h, rest⟩ := val
          have hr := matchDescriptorAt_length_lt hm
          simp only [scanFuel, hm]
          split
          · rfl
          · exact ih g rest _ _ (by simp at hf hr ⊢; omega)
              (by simp at hg hr ⊢; omega)

theorem matchesFuel_congr :
    ∀ (f g : Nat) (s : List Char), s.length ≤ f → s.length ≤ g →
      matchesFuel f s = matchesFuel g s := by
  intro f
  induction f with
  | zero =>
    intro g s hf _
    have hnil : s = [] := List.eq_nil_of_length_eq_zero (Nat.le_zero.mp hf)
    subst hnil
    cases g <;> rfl
  | succ f ih =>
    intro g s hf hg
    cases s with
    | nil => cases g <;> rfl
    | cons c tail =>
      cases g with
      | zero => simp at hg
      | succ g =>
        cases hm : matchDescriptorAt (c :: tail) with
        | none =>
          simp only [matchesFuel, hm]
          exact ih g tail (by simp at hf; omega) (by simp at hg; omega)
        | some val =>
          obtain ⟨url, w, h, rest⟩ := val
          have hr := matchDescriptorAt_length_lt hm
          simp only [matchesFuel, hm, List.cons.injEq, true_and]
          exact ih g rest (by simp at hf hr ⊢; omega) (by simp at hg hr ⊢; omega)

theorem scanAux_nil (photos : List Photo) (seen : List String) :
    scanAux [] photos seen = photos := rfl

theorem matchesOf_nil : matchesOf [] = [] := rfl

theorem scanAux_cons_none (c : Char) (tail : List Char) (photos : List Photo)
    (seen : List String) (hm : matchDescriptorAt (c :: tail) = none) :
    scanAux (c :: tail) photos seen = scanAux tail photos seen := by
  unfold scanAux
  show scanFuel (tail.length + 1) (c :: tail) photos seen = _
  simp only [scanFuel, hm]

theorem matchesOf_cons_none (c : Char) (tail : List Char)
    (hm : matchDescriptorAt (c :: tail) = none) :
    matchesOf (c :: tail) = matchesOf tail := by
  unfold matchesOf
  show matchesFuel (tail.length + 1) (c :: tail) = _
  simp only [matchesFuel, hm]

theorem scanAux_cons_some (c : Char) (tail : List Char) (photos : List Photo)
    (seen : List String) (url : String) (w h : Nat) (rest : List Char)
    (hm : matchDescriptorAt (c :: tail) = some (url, w, h, rest)) :
    scanAux (c :: tail) photos seen =
      (if (scanStepState photos seen url w h).1.length ≥ 6 then
        (scanStepState photos seen url w h).1
      else
        scanAux rest (scanStepState photos seen url w h).1
          (scanStepState photos seen url w h).2) := by
  unfold scanAux
  show scanFuel (tail.length + 1) (c :: tail) photos seen = _
  simp only [scanFuel, hm]
  have hr := matchDescriptorAt_length_lt hm
  split
  · rfl
  · exact scanFuel_congr tail.length rest.length rest _ _ (by simp at hr ⊢; omega)
      (le_refl _)

theorem matchesOf_cons_some (c : Char) (tail : List Char) (url : String)
    (w h : Nat) (rest : List Char)
    (hm : matchDescriptorAt (c :: tail) = some (url, w, h, rest)) :
    matchesOf (c :: tail) = (url, w, h) :: matchesOf rest := by
  unfold matchesOf
  show matchesFuel (tail.length + 1) (c :: tail) = _
  simp only [matchesFuel, hm, List.cons.injEq, true_and]
  have hr := matchDescriptorAt_length_lt hm
  exact matchesFuel_congr tail.length rest.length rest (by simp at hr ⊢; omega)
    (le_refl _)

/-! ### The selection fold -/

theorem selectFold_nil (st : List Photo × List String) : selectFold [] st = st := rfl

theorem selectFold_cons (m : String × Nat × Nat) (ms : List (String × Nat × Nat))
    (st : List Photo × List String) :
    selectFold (m :: ms) st = selectFold ms (selectStep st m) := rfl

theorem selectFold_append (a b : List (String × Nat × Nat))
    (st : List Photo × List String) :
    selectFold (a ++ b) st = selectFold b (selectFold a st) :=
  List.foldl_append _ _ _ _

theorem selectStep_of_full {st : List Photo × List String}
    (hf : st.1.length ≥ 6) (m : String × Nat × Nat) : selectStep st m = st := by
  simp [selectStep, hf]

theorem selectFold_of_full (ms : List (String × Nat × Nat))
    {st : List Photo × List String} (hf : st.1.length ≥ 6) :
    selectFold ms st = st := by
  induction ms with
  | nil => rfl
  | cons m ms ih => rw [selectFold_cons, selectStep_of_full hf]; exact ih

theorem selectStep_not_full {photos : List Photo} {seen : List String}
    {url : String} {w h : Nat} (hn : ¬ photos.length ≥ 6) :
    selectStep (photos, seen) (url, w, h) = scanStepState photos seen url w h := by
  simp [selectStep, scanStepState, hn]

/-- The interleaved scan of `fetchGooglePhotos` agrees with the two-phase
description: first list every match in scan order, then fold the selection
contract over that list. -/
theorem scanAux_eq_selectFold :
    ∀ (n : Nat) (s : List Char), s.length ≤ n →
      ∀ (photos : List Photo) (seen : List String), photos.length < 6 →
        scanAux s photos seen = (selectFold (matchesOf s) (photos, seen)).1 := by
  intro n
  induction n with
  | zero =>
    intro s hs photos seen _
    have hnil : s = [] := List.eq_nil_of_length_eq_zero (Nat.le_zero.mp hs)
    subst hnil
    rw [scanAux_nil, matchesOf_nil, selectFold_nil]
  | succ n ih =>
    intro s hs photos seen hlt
    cases s with
    | nil => rw [scanAux_nil, matchesOf_nil, selectFold_nil]
    | cons c tail =>
      cases hm : matchDescriptorAt (c :: tail) with
      | none =>
        rw [scanAux_cons_none c tail photos seen hm, matchesOf_cons_none c tail hm]
        have htail : tail.length ≤ n := by simp at hs; omega
        exact ih tail htail photos seen hlt
      | some val =>
        obtain ⟨url, w, h, rest⟩ := val
        rw [scanAux_cons_some c tail photos seen url w h rest hm,
          matchesOf_cons_some c tail url w h rest hm, selectFold_cons,
          selectStep_not_full (by omega)]
        by_cases hfull : (scanStepState photos seen url w h).1.length ≥ 6
        · rw [if_pos hfull, selectFold_of_full _ hfull]
        · rw [if_neg hfull]
          have hrest : rest.length ≤ n := by
            have hlen := matchDescriptorAt_length_lt hm
            simp at hs hlen; omega
          exact ih rest hrest (scanStepState photos seen url w h).1
            (scanStepState photos seen url w h).2 (by omega)

/-- `extract` agrees with the spec-worded selection over the scan-order
match list. -/
theorem extract_eq_spec (html : String) :
    extract html = specSelect (matchesOf html.toList) :=
  scanAux_eq_selectFold html.toList.length html.toList (le_refl _) [] []
    (by simp)

/-! ### Invariants of the selection state -/

theorem selectStep_good {st : List Photo × List String} (m : String × Nat × Nat)
    (hg : GoodState st) : GoodState (selectStep st m) := by
  obtain ⟨hseen, hnodup, hlen, hdims⟩ := hg
  unfold selectStep
  split
  · exact ⟨hseen, hnodup, hlen, hdims⟩
  rename_i hnotfull
  split
  · rename_i hpass
    split
    · exact ⟨hseen, hnodup, hlen, hdims⟩
    · rename_i hnew
      refine ⟨?_, ?_, ?_, ?_⟩
      · simp [hseen]
      · have hmem : m.1 ∉ st.1.map Photo.url := by
          intro hmem
          exact hnew (by rw [hseen]; simp [hmem])
        simp [List.nodup_append, hnodup, hmem]
      · simp at hnotfull ⊢; omega
      · intro p hp
        simp at hp
        rcases hp with hp | hp
        · exact hdims p hp
        · subst hp; exact hpass
  · exact ⟨hseen, hnodup, hlen, hdims⟩

theorem selectFold_good (ms : List (String × Nat × Nat))
    {st : List Photo × List String} (hg : GoodState st) :
    GoodState (selectFold ms st) := by
  induction ms generalizing st with
  | nil => exact hg
  | cons m ms ih => rw [selectFold_cons]; exact ih (selectStep_good m hg)

theorem specSelect_good (ms : List (String × Nat × Nat)) :
    GoodState (selectFold ms ([], [])) :=
  selectFold_good ms (by simp [GoodState])

/-- The accepted-photo list only grows at the back: the state's photo list is
a prefix of the photo list after folding any further matches. -/
theorem selectFold_prefix (ms : List (String × Nat × Nat))
    (st : List Photo × List String) : st.1 <+: (selectFold ms st).1 := by
  induction ms generalizing st with
  | nil => exact List.prefix_refl _
  | cons m ms ih =>
    rw [selectFold_cons]
    refine List.IsPrefix.trans ?_ (ih (selectStep st m))
    unfold selectStep
    split
    · exact List.prefix_refl _
    split
    · split
      · exact List.prefix_refl _
      · exact ⟨[⟨m.1, m.2.1, m.2.2⟩], rfl⟩
    · exact List.prefix_refl _

/-- A URL enters the seen set only through a match that passed the size
filter. -/
theorem mem_seen_of_selectFold (ms : List (String × Nat × Nat)) :
    ∀ (st : List Photo × List String) (u : String),
      u ∈ (selectFold ms st).2 →
      u ∈ st.2 ∨ ∃ m ∈ ms, m.1 = u ∧ 300 < m.2.1 ∧ 300 < m.2.2 := by
  induction ms with
  | nil => intro st u hu; exact Or.inl hu
  | cons m ms ih =>
    intro st u hu
    rw [selectFold_cons] at hu
    rcases ih (selectStep st m) u hu with hu' | ⟨m', hm', he, hp⟩
    · unfold selectStep at hu'
      split at hu'
      · exact Or.inl hu'
      split at hu'
      · rename_i hpass
        split at hu'
        · exact Or.inl hu'
        · simp at hu'
          rcases hu' with hu' | hu'
          · exact Or.inr ⟨m, List.mem_cons_self m ms, hu'.symm, hpass⟩
          · exact Or.inl hu'
      · exact Or.inl hu'
    · exact Or.inr ⟨m', List.mem_cons_of_mem m hm', he, hp⟩

/-! ### Layout lemmas -/

theorem length_renderGallery (photos : List Photo) :
    (renderGallery photos).length = photos.length := by
  simp [renderGallery]

theorem slotAt_eq_slotFor (photos : List Photo) (i : Nat)
    (hi : i < photos.length) : slotAt photos i = slotFor i := by
  unfold slotAt renderGallery
  have hlen : i < (photos.enum.map (fun ip => (ip.2, slotFor ip.1))).length := by
    simpa using hi
  rw [List.getD_eq_getElem _ _ hlen, List.getElem_map, List.getElem_enum]

theorem renderGallery_map_fst (photos : List Photo) :
    (renderGallery photos).map Prod.fst = photos := by
  unfold renderGallery
  rw [List.map_map]
  have hcomp : (Prod.fst ∘ fun ip : Nat × Photo => (ip.2, slotFor ip.1)) =
      Prod.snd := rfl
  rw [hcomp, List.enum_map_snd]

theorem renderGallery_map_snd (photos : List Photo) :
    (renderGallery photos).map Prod.snd =
      (List.range photos.length).map slotFor := by
  unfold renderGallery
  rw [List.map_map]
  have hcomp : (Prod.snd ∘ fun ip : Nat × Photo => (ip.2, slotFor ip.1)) =
      slotFor ∘ Prod.fst := rfl
  rw [hcomp, ← List.map_map, List.enum_map_fst]

/-! ### The claims -/

/-- C1: for every result list handed to the layout assigner, the slot at
ordinal index 0 is LARGE with overlay, the slots at indices 1 through 4 are
SMALL without overlay, and the slot at index 5 is WIDE with overlay. -/
theorem layout_slots_by_index (photos : List Photo) (i : Nat)
    (hi : i < photos.length) :
    (i = 0 → slotAt photos i = ⟨.LARGE, true⟩) ∧
    (1 ≤ i → i ≤ 4 → slotAt photos i = ⟨.SMALL, false⟩) ∧
    (i = 5 → slotAt photos i = ⟨.WIDE, true⟩) := by
  rw [slotAt_eq_slotFor photos i hi]
  refine ⟨?_, ?_, ?_⟩
  · intro h0; subst h0; rfl
  · intro h1 h4; unfold slotFor; rw [if_neg (by omega), if_neg (by omega)]
  · intro h5; subst h5; rfl

/-- Witness for C1: the six-photo sample list at index 5. -/
theorem layout_slots_by_index_witness :
    5 < samplePhotos.length ∧
      ((5 = 0 → slotAt samplePhotos 5 = ⟨.LARGE, true⟩) ∧
       (1 ≤ 5 → 5 ≤ 4 → slotAt samplePhotos 5 = ⟨.SMALL, false⟩) ∧
       (5 = 5 → slotAt samplePhotos 5 = ⟨.WIDE, true⟩)) :=
  ⟨by decide, layout_slots_by_index samplePhotos 5 (by decide)⟩

/-- C2: for every input text, `extract` returns at most six photos. -/
theorem extract_length_le_six (html : String) : (extract html).length ≤ 6 := by
  rw [extract_eq_spec]
  exact (specSelect_good (matchesOf html.toList)).2.2.1

/-- C3: every photo in any extraction result has width and height strictly
greater than 300. -/
theorem extract_dims_gt_threshold (html : String) (p : Photo)
    (hp : p ∈ extract html) : 300 < p.width ∧ 300 < p.height := by
  rw [extract_eq_spec] at hp
  exact (specSelect_good (matchesOf html.toList)).2.2.2 p hp

/-- Witness for C3: a concrete page with one accepted 400×500 photo. -/
theorem extract_dims_gt_threshold_witness :
    Photo.mk "https://lh3.googleusercontent.com/abc" 400 500 ∈ extract okHtml ∧
      (300 < (Photo.mk "https://lh3.googleusercontent.com/abc" 400 500).width ∧
       300 < (Photo.mk "https://lh3.googleusercontent.com/abc" 400 500).height) :=
  ⟨by decide,
   extract_dims_gt_threshold okHtml
     (Photo.mk "https://lh3.googleusercontent.com/abc" 400 500) (by decide)⟩

/-- C4: the URLs of the photos in any extraction result are pairwise
distinct. -/
theorem extract_urls_nodup (html : String) :
    ((extract html).map Photo.url).Nodup := by
  rw [extract_eq_spec]
  exact (specSelect_good (matchesOf html.toList)).2.1

/-- C5: the extraction result equals the spec-worded ordered selection —
the matches in left-to-right scan order, restricted by the size filter and
first-acceptance-wins deduplication and capped at six, in that order. -/
theorem extract_eq_ordered_selection (html : String) :
    extract html = specSelect (matchesOf html.toList) :=
  extract_eq_spec html

/-- C6: extraction is a total function (it is a plain recursive scan with no
failure path), and an input with no well-formed descriptor match — in
particular an empty or fully malformed input — yields the empty result. -/
theorem extract_empty_of_no_matches (html : String)
    (hnone : matchesOf html.toList = []) : extract html = [] := by
  rw [extract_eq_spec, hnone]
  rfl

/-- Witness for C6: a malformed page (non-numeric width) has no matches and
extracts to the empty list. -/
theorem extract_empty_of_no_matches_witness :
    matchesOf malformedHtml.toList = [] ∧ extract malformedHtml = [] :=
  ⟨by decide, extract_empty_of_no_matches malformedHtml (by decide)⟩

/-- C7: the slot sequence is a function of the length alone — two photo
lists of equal length get identical slot sequences — and the photo order is
not changed by layout assignment. -/
theorem layout_positional_only (ps qs : List Photo)
    (hlen : ps.length = qs.length) :
    (renderGallery ps).map Prod.snd = (renderGallery qs).map Prod.snd ∧
      (renderGallery ps).map Prod.fst = ps := by
  constructor
  · rw [renderGallery_map_snd, renderGallery_map_snd, hlen]
  · exact renderGallery_map_fst ps

/-- Witness for C7: the sample list and its reversal (same length, different
content) get the same slot sequence. -/
theorem layout_positional_only_witness :
    samplePhotos.length = samplePhotos.reverse.length ∧
      ((renderGallery samplePhotos).map Prod.snd =
        (renderGallery samplePhotos.reverse).map Prod.snd ∧
       (renderGallery samplePhotos).map Prod.fst = samplePhotos) :=
  ⟨by decide,
   layout_positional_only samplePhotos samplePhotos.reverse (by decide)⟩

/-- C8: two calls of the extractor on identical input yield identical
results — `extractTwice` models the two calls, each with its own fresh local
state, as in the source. -/
theorem extract_idempotent (html : String) :
    (extractTwice html).1 = (extractTwice html).2 := rfl

/-- C9 (amended): deduplication tracks only accepted URLs.  If every earlier
match of URL `u` fails the size filter, a later passing match of `u` is
accepted — provided fewer than six photos are accepted from the earlier
matches (the quota can still block it). -/
theorem dedup_tracks_only_accepted (html : String)
    (pre post : List (String × Nat × Nat)) (u : String) (w h : Nat)
    (hsplit : matchesOf html.toList = pre ++ (u, w, h) :: post)
    (hfail : ∀ m ∈ pre, m.1 = u → ¬(300 < m.2.1 ∧ 300 < m.2.2))
    (hw : 300 < w) (hh : 300 < h)
    (hquota : (specSelect pre).length < 6) :
    Photo.mk u w h ∈ extract html := by
  rw [extract_eq_spec, hsplit]
  show Photo.mk u w h ∈ (selectFold (pre ++ (u, w, h) :: post) ([], [])).1
  rw [selectFold_append, selectFold_cons]
  have hnotseen : u ∉ (selectFold pre ([], [])).2 := by
    intro hu
    rcases mem_seen_of_selectFold pre ([], []) u hu with hu' | ⟨m, hm, he, hp⟩
    · simp at hu'
    · exact hfail m hm he hp
  have hnotfull : ¬ ((selectFold pre ([], [])).1.length ≥ 6) := by
    have hq : (specSelect pre).length < 6 := hquota
    unfold specSelect at hq
    omega
  have hstep : selectStep (selectFold pre ([], [])) (u, w, h) =
      ((selectFold pre ([], [])).1 ++ [⟨u, w, h⟩],
        u :: (selectFold pre ([], [])).2) := by
    unfold selectStep
    rw [if_neg hnotfull, if_pos ⟨hw, hh⟩, if_neg (by simpa using hnotseen)]
  rw [hstep]
  have hpref := selectFold_prefix post
    ((selectFold pre ([], [])).1 ++ [⟨u, w, h⟩],
      u :: (selectFold pre ([], [])).2)
  exact hpref.subset (by simp)

/-- Witness for C9 (amended): in `retryHtml` the URL's failing occurrence
does not block its later passing occurrence. -/
theorem dedup_tracks_only_accepted_witness :
    (matchesOf retryHtml.toList =
        [("https://lh3.googleusercontent.com/x", 100, 100)] ++
          ("https://lh3.googleusercontent.com/x", 400, 400) :: []) ∧
      (specSelect [("https://lh3.googleusercontent.com/x", 100, 100)]).length < 6 ∧
      Photo.mk "https://lh3.googleusercontent.com/x" 400 400 ∈ extract retryHtml :=
  ⟨by decide, by decide,
   dedup_tracks_only_accepted retryHtml
     [("https://lh3.googleusercontent.com/x", 100, 100)] []
     "https://lh3.googleusercontent.com/x" 400 400 (by decide) (by decide)
     (by decide) (by decide) (by decide)⟩

/-- C9 counterexample: in `quotaHtml` the URL `…/x` first occurs failing the
size filter and later occurs passing it, yet the passing occurrence is not
accepted, because six photos were already accepted when the scan reached
it. -/
theorem late_occurrence_blocked_by_quota :
    matchesOf quotaHtml.toList =
      [("https://lh3.googleusercontent.com/a1", 400, 400),
       ("https://lh3.googleusercontent.com/a2", 400, 400),
       ("https://lh3.googleusercontent.com/a3", 400, 400),
       ("https://lh3.googleusercontent.com/a4", 400, 400),
       ("https://lh3.googleusercontent.com/a5", 400, 400),
       ("https://lh3.googleusercontent.com/a6", 400, 400),
       ("https://lh3.googleusercontent.com/x", 100, 100),
       ("https://lh3.googleusercontent.com/x", 400, 400)] ∧
      Photo.mk "https://lh3.googleusercontent.com/x" 400 400 ∉
        extract quotaHtml := by
  exact ⟨by decide, by decide⟩

/-- C10: layout assignment is total and never rejects a count: every index
other than 0 and 5 — including indices beyond 5 — receives a SMALL slot
without overlay, and `renderGallery` processes every input element (no
clamping, no error). -/
theorem layout_total_no_clamp (photos : List Photo) (i : Nat)
    (h0 : i ≠ 0) (h5 : i ≠ 5) :
    (renderGallery photos).length = photos.length ∧
      slotFor i = ⟨.SMALL, false⟩ := by
  refine ⟨length_renderGallery photos, ?_⟩
  unfold slotFor
  rw [if_neg h0, if_neg h5]

/-- Witness for C10: an eight-photo list and index 7. -/
theorem layout_total_no_clamp_witness :
    (7 : Nat) ≠ 0 ∧ (7 : Nat) ≠ 5 ∧
      ((renderGallery eightPhotos).length = eightPhotos.length ∧
        slotFor 7 = ⟨.SMALL, false⟩) :=
  ⟨by decide, by decide,
   layout_total_no_clamp eightPhotos 7 (by decide) (by decide)⟩

end Gallery
